import Mathlib

/-!
Verification of the DSUComfyCG Manager dependency-resolution and download
engine (`Manager/core/checker.py`, `Manager/core/fuzzy_matcher.py`,
`Manager/core/search_engines.py`, `Manager/core/aria2_downloader.py`).

The Python code is shallowly embedded: pure helpers become Lean functions;
the module-level mutable state (`NOT_FOUND_CACHE`) is passed explicitly; the
filesystem is an association list from paths to byte lists; every network
interaction (HuggingFace search, CivitAI search, Tavily search, HEAD / GET
requests, ranged chunk fetches, the aria2 subprocess, `hf_hub_download`) is
an oracle carried by an `Env` record, and each oracle consultation is logged
as a `NetOp` so that "performs no network call" is expressible.

Note on the source: `checker.py` defines `check_model_in_db` twice.  The
enhanced v6 cascade (lines 134-269) is shadowed by a second, legacy
definition (lines 561-600), which is therefore the one Python binds at
runtime.  Both are embedded here: `check_model_in_db` models the effective
(later) definition and `check_model_in_db_v6` models the enhanced one.
-/

/-- Lower-case a string character by character (Python `str.lower` on the
ASCII names used throughout the code base). -/
def strLower (s : String) : String :=
  ⟨s.data.map Char.toLower⟩

/-- Replace every backslash by a forward slash
(`name.replace("\\", "/")`). -/
def slashify (s : String) : String :=
  ⟨s.data.map (fun c => if c = '\\' then '/' else c)⟩

/-- Drop everything up to and including the last `/`
(`os.path.basename` on an already slash-normalised path). -/
def basenameAux : List Char → List Char
  | [] => []
  | c :: rest =>
    if '/' ∈ rest then basenameAux rest
    else if c = '/' then rest
    else c :: rest

/-- `os.path.basename(name.replace("\\", "/"))`, the canonical key used by
the resolver for all matching. -/
def pyBasename (s : String) : String :=
  ⟨basenameAux (slashify s).data⟩

/-- Index (0-based, counted from the start) of the last dot that is preceded
by a non-dot character, if any: the split point of `os.path.splitext`. -/
def splitextIndex (cs : List Char) : Option Nat :=
  let idxs := (List.range cs.length).filter fun i =>
    (cs.getD i ' ' == '.') && (List.range i).any fun j => cs.getD j ' ' != '.'
  idxs.max?

/-- `os.path.splitext` restricted to basenames: split off the final
extension, never splitting a leading run of dots. -/
def splitext (s : String) : String × String :=
  match splitextIndex s.data with
  | none => (s, "")
  | some i => (⟨s.data.take i⟩, ⟨s.data.drop i⟩)

/-- Python `in` for strings: `sub` occurs contiguously inside `s`. -/
def listInfix (sub s : List Char) : Bool :=
  match s with
  | [] => sub = []
  | _ :: rest => sub.isPrefixOf s || listInfix sub rest

/-- String containment test (`sub in s` in Python). -/
def strContains (s sub : String) : Bool :=
  listInfix sub.data s.data

/-- `os.path.join` for the forward-slash paths the engine builds. -/
def joinPath (a b : String) : String :=
  a ++ "/" ++ b

/-- Python `round(x, 3)`: round to 3 decimal places, ties to even, on the
exact rational value of the similarity ratio.  Writing `x` for `q * 1000`
(formed as `(1000 * q.num) / q.den` so the kernel can evaluate it), the
fractional part `x - ⌊x⌋` equals `(x.num - ⌊x⌋ * x.den) / x.den`, so the
three-way comparison against `1/2` is performed on integers. -/
def round3 (q : ℚ) : ℚ :=
  let x : ℚ := Rat.divInt (1000 * q.num) q.den
  let n : ℤ := ⌊x⌋
  let r : ℤ := x.num - n * x.den
  if 2 * r < x.den then Rat.divInt n 1000
  else if 2 * r > x.den then Rat.divInt (n + 1) 1000
  else if n % 2 = 0 then Rat.divInt n 1000 else Rat.divInt (n + 1) 1000

/-!  `difflib.SequenceMatcher` (no junk, autojunk never triggering on the
short strings compared here): `find_longest_match` returns the longest
matching block, breaking ties towards the smallest index in `a`, then the
smallest index in `b`; `get_matching_blocks` recurses on both sides of that
block; `ratio` is `2*M/T` for `M` the total size of the matching blocks and
`T` the sum of the lengths. -/

/-- One row of the `find_longest_match` dynamic programme: scan the
positions `j ∈ [blo, bhi)` of `b` (ascending, as Python iterates `b2j`),
extending runs ending at `a[i]`.  `j2len` maps `j` to the length of the
longest run ending at `(i-1, j)`. -/
def flmRow (ai : Char) (b : List Char) (blo bhi : Nat) (j2len : List (Nat × Nat))
    (i : Nat) (best : Nat × Nat × Nat) : List (Nat × Nat) × (Nat × Nat × Nat) :=
  let js := (List.range bhi).filter fun j => decide (blo ≤ j) && (b.getD j ' ' == ai)
  js.foldl
    (fun (acc : List (Nat × Nat) × (Nat × Nat × Nat)) j =>
      let (newj2len, b0) := acc
      let k := (if j = 0 then 0 else (j2len.lookup (j-1)).getD 0) + 1
      let best' := if k > b0.2.2 then (i + 1 - k, j + 1 - k, k) else b0
      (newj2len ++ [(j, k)], best'))
    ([], best)

/-- `SequenceMatcher.find_longest_match(alo, ahi, blo, bhi)` with no junk:
returns `(i, j, k)`, the longest block `a[i:i+k] = b[j:j+k]` inside the
given window, smallest `i` then smallest `j` on ties. -/
def findLongestMatch (a b : List Char) (alo ahi blo bhi : Nat) : Nat × Nat × Nat :=
  let is := (List.range ahi).filter fun i => alo ≤ i
  let r := is.foldl
    (fun (acc : List (Nat × Nat) × (Nat × Nat × Nat)) i =>
      flmRow (a.getD i ' ') b blo bhi acc.1 i acc.2)
    ([], (alo, blo, 0))
  r.2

/-- `get_matching_blocks` (without the terminating sentinel), written with
structural fuel; `fuel = ahi - alo` suffices since every recursive call
shrinks the `a`-window. -/
def matchingBlocks (a b : List Char) : Nat → Nat → Nat → Nat → Nat → List (Nat × Nat × Nat)
  | 0, _, _, _, _ => []
  | fuel + 1, alo, ahi, blo, bhi =>
    let (i, j, k) := findLongestMatch a b alo ahi blo bhi
    if k = 0 then []
    else
      matchingBlocks a b fuel alo i blo j
        ++ [(i, j, k)]
        ++ matchingBlocks a b fuel (i + k) ahi (j + k) bhi

/-- `SequenceMatcher(None, a, b).ratio()` as an exact rational. -/
def smRatio (a b : String) : ℚ :=
  let la := a.data.length
  let lb := b.data.length
  if la + lb = 0 then 1
  else
    let blocks := matchingBlocks a.data b.data (la + 1) 0 la 0 lb
    let m : Nat := (blocks.map fun t => t.2.2).sum
    Rat.divInt (Int.ofNat (2 * m)) (Int.ofNat (la + lb))

/-- Stable insertion of a scored candidate into a list sorted by score
descending: equal scores keep first-seen order, matching Python's stable
`list.sort(key=..., reverse=True)`. -/
def insertDesc (x : String × ℚ) : List (String × ℚ) → List (String × ℚ)
  | [] => [x]
  | y :: ys => if x.2 > y.2 then x :: y :: ys else y :: insertDesc x ys

/-- Stable sort by score descending. -/
def sortDesc (l : List (String × ℚ)) : List (String × ℚ) :=
  l.foldl (fun acc x => insertDesc x acc) []

/-!  Embedding of `Manager/core/fuzzy_matcher.py`. -/

/-- Confidence for an exact table hit (`CONFIDENCE_EXACT = 1.0`). -/
def CONFIDENCE_EXACT : ℚ := 1

/-- Confidence for an alias (format-variant) hit (`CONFIDENCE_ALIAS = 0.90`). -/
def CONFIDENCE_ALIAS : ℚ := Rat.divInt 9 10

/-- `CONFIDENCE_FUZZY_HIGH = 0.85`. -/
def CONFIDENCE_FUZZY_HIGH : ℚ := Rat.divInt 85 100

/-- `CONFIDENCE_FUZZY_MED = 0.70`. -/
def CONFIDENCE_FUZZY_MED : ℚ := Rat.divInt 70 100

/-- `FORMAT_ALIASES`: precision/quantization tags mapped to their registered
alternative tags, in source order. -/
def FORMAT_ALIASES : List (String × List String) :=
  [ ("fp16", ["bf16", "fp32", "fp8_e4m3fn", "fp8_e4m3fn_scaled", "fp8"]),
    ("bf16", ["fp16", "fp32", "fp8_e4m3fn", "fp8_e4m3fn_scaled", "fp8"]),
    ("fp32", ["bf16", "fp16"]),
    ("fp8", ["fp8_e4m3fn", "fp8_e4m3fn_scaled", "fp16", "bf16"]),
    ("fp8_e4m3fn", ["fp8_e4m3fn_scaled", "fp8", "fp16", "bf16"]),
    ("fp8_e4m3fn_scaled", ["fp8_e4m3fn", "fp8", "fp16", "bf16"]),
    ("Q4_K_M", ["Q4_K_S", "Q5_K_M", "Q5_K_S", "Q8_0", "Q6_K"]),
    ("Q4_K_S", ["Q4_K_M", "Q5_K_S", "Q5_K_M", "Q8_0"]),
    ("Q5_K_M", ["Q5_K_S", "Q4_K_M", "Q6_K", "Q8_0"]),
    ("Q5_K_S", ["Q5_K_M", "Q4_K_M", "Q4_K_S", "Q8_0"]),
    ("Q6_K", ["Q5_K_M", "Q8_0", "Q4_K_M"]),
    ("Q8_0", ["Q6_K", "Q5_K_M", "Q4_K_M"]) ]

/-- `EXTENSION_ALIASES`: alternative file extensions, in source order. -/
def EXTENSION_ALIASES : List (String × List String) :=
  [ (".safetensors", [".ckpt", ".pt", ".pth", ".bin"]),
    (".ckpt", [".safetensors", ".pt", ".pth"]),
    (".pt", [".pth", ".safetensors", ".ckpt"]),
    (".pth", [".pt", ".safetensors", ".ckpt"]),
    (".gguf", [".safetensors"]),
    (".bin", [".safetensors", ".pt"]) ]

/-- The alternatives of `_PRECISION_PATTERN`, in the pattern's alternation
order (the regex engine tries them in this order at each position). -/
def precisionAlts : List String :=
  ["fp16", "bf16", "fp32", "fp8_e4m3fn_scaled", "fp8_e4m3fn", "fp8",
   "Q4_K_M", "Q4_K_S", "Q5_K_M", "Q5_K_S", "Q6_K", "Q8_0"]

/-- Try the alternation of `_PRECISION_PATTERN` at position `i` of `cs`
(the character after the `[_-]` separator): case-insensitive match of one
alternative followed by the `(?=[\._-]|$)` look-ahead.  Returns the matched
text in its original case (`match.group(1)`). -/
def precAltMatchAt (cs : List Char) (i : Nat) : Option String :=
  precisionAlts.findSome? fun alt =>
    let n := alt.data.length
    let seg := (cs.drop i).take n
    if seg.map Char.toLower = alt.data.map Char.toLower ∧ seg.length = n ∧
        (i + n = cs.length ∨ cs.getD (i + n) ' ' = '.' ∨
         cs.getD (i + n) ' ' = '_' ∨ cs.getD (i + n) ' ' = '-') then
      some ⟨seg⟩
    else none

/-- `_PRECISION_PATTERN.search(stem)`: leftmost position `i` whose character
is `_` or `-` and whose tail matches one alternative with a valid
look-ahead; yields `(match.start(), match.group(1))`. -/
def precisionSearch (stem : String) : Option (Nat × String) :=
  (List.range stem.data.length).findSome? fun i =>
    if stem.data.getD i ' ' = '_' ∨ stem.data.getD i ' ' = '-' then
      (precAltMatchAt stem.data (i + 1)).map fun g => (i, g)
    else none

/-- `_PRECISION_PATTERN.sub("", stem)`: delete every non-overlapping match
(separator plus tag), scanning left to right; fuel-structural on the
string length. -/
def precSubAllAux : Nat → String → String
  | 0, s => s
  | fuel + 1, s =>
    match precisionSearch s with
    | none => s
    | some (i, g) =>
      ⟨s.data.take i⟩ ++ precSubAllAux fuel ⟨s.data.drop (i + 1 + g.data.length)⟩

/-- `_PRECISION_PATTERN.sub("", stem)`. -/
def precSubAll (s : String) : String :=
  precSubAllAux s.data.length s

/-- A resolver info dict.  The Python code passes heterogeneous dicts with
an open set of optional keys; the keys the engine ever reads are modelled
as optional fields (`_confidence` is `confidence`, `_method` is `method`,
`_matched_name` is `matchedName`, `hf_filename` is `hfFilename`). -/
structure ModelInfo where
  url : Option String := none
  repoId : Option String := none
  filename : Option String := none
  hfFilename : Option String := none
  folder : Option String := none
  description : Option String := none
  source : Option String := none
  confidence : Option ℚ := none
  method : Option String := none
  matchedName : Option String := none
  deriving DecidableEq, Repr

/-- One entry of the external catalog `model-list.json`
(`{ name, filename, url, type }`); absent keys are `none`. -/
structure ExtModel where
  name : Option String := none
  filename : Option String := none
  url : Option String := none
  mtype : Option String := none
  deriving DecidableEq, Repr

/-- `fuzzy_match_model(name, candidates, threshold)`: score every candidate
stem against the target stem (case-insensitive, path- and extension-
stripped), keep those at or above the threshold (the unrounded ratio is
compared, the stored score is rounded to 3 decimals), sorted by similarity
descending, stable. -/
def fuzzy_match_model (name : String) (candidates : List String)
    (threshold : ℚ) : List (String × ℚ) :=
  if name = "" ∨ candidates = [] then []
  else
    let basename := strLower (pyBasename name)
    let nameStem := (splitext basename).1
    let scored := candidates.filterMap fun candidate =>
      let candBasename := strLower (pyBasename candidate)
      let candStem := (splitext candBasename).1
      let ratio := smRatio nameStem candStem
      if ratio ≥ threshold then some (candidate, round3 ratio) else none
    sortDesc scored

/-- Last-wins association lookup, matching Python dict assignment order in
`ext_map[name] = model`. -/
def extMapLookup (pairs : List (String × ExtModel)) (key : String) : Option ExtModel :=
  pairs.reverse.lookup key

/-- The candidate-name list and name-to-entry map built from the external
catalog by `fuzzy_match_in_db` (non-empty filenames, then display names
differing from the filename). -/
def extNamesMap (ext_model_db : List ExtModel) : List String × List (String × ExtModel) :=
  ext_model_db.foldl
    (fun (acc : List String × List (String × ExtModel)) m =>
      let fname := m.filename.getD ""
      let mname := m.name.getD ""
      let acc1 := if fname ≠ "" then (acc.1 ++ [fname], acc.2 ++ [(fname, m)]) else acc
      if mname ≠ "" ∧ mname ≠ fname then (acc1.1 ++ [mname], acc1.2 ++ [(mname, m)])
      else acc1)
    ([], [])

/-- `fuzzy_match_in_db(model_name, model_db, ext_model_db, threshold)`:
fuzzy search the local table first (returning its stored info dict as-is),
then the external catalog (returning a fresh dict).  `some (info,
confidence, matched_name)` models the `(True, info, confidence, name)`
return. -/
def fuzzy_match_in_db (model_name : String)
    (model_db : List (String × ModelInfo)) (ext_model_db : List ExtModel)
    (threshold : ℚ) : Option (ModelInfo × ℚ × String) :=
  let basename := pyBasename model_name
  let localMatches :=
    if model_db.isEmpty then []
    else fuzzy_match_model basename (model_db.map Prod.fst) threshold
  match localMatches with
  | (bestName, confidence) :: _ =>
    (model_db.lookup bestName).map fun info => (info, confidence, bestName)
  | [] =>
    if ext_model_db.isEmpty then none
    else
      let acc := extNamesMap ext_model_db
      match fuzzy_match_model basename acc.1 threshold with
      | (bestName, confidence) :: _ =>
        (extMapLookup acc.2 bestName).map fun m =>
          (({ url := m.url
              filename := m.filename
              folder := some (m.mtype.getD "checkpoints")
              description := some ((m.name.getD bestName) ++ " (Fuzzy)") } : ModelInfo),
           confidence, bestName)
      | [] => none

/-- `get_alternative_names(model_name)`: precision/quantization substitutions
for the detected tag, then alternate extensions (deduplicated against the
list so far), then the GGUF/safetensors speculative variants. -/
def get_alternative_names (model_name : String) : List String :=
  let basename := pyBasename model_name
  let se := splitext basename
  let stem := se.1
  let ext := se.2
  let m := precisionSearch stem
  let altsPrec :=
    match m with
    | none => []
    | some (i, orig) =>
      let pre : String := ⟨stem.data.take i⟩
      let suf : String := ⟨stem.data.drop (i + 1 + orig.data.length)⟩
      let sep : String := ⟨(stem.data.drop i).take 1⟩
      let aliasList :=
        match FORMAT_ALIASES.lookup orig with
        | some l => l
        | none =>
          (((FORMAT_ALIASES.filter fun (p : String × List String) =>
              strLower p.1 == strLower orig).head?).map Prod.snd).getD []
      (aliasList.map fun alt => pre ++ sep ++ alt ++ suf ++ ext).filter
        fun altName => altName ≠ basename
  let extLower := strLower ext
  let afterExt :=
    match EXTENSION_ALIASES.lookup extLower with
    | none => altsPrec
    | some exts =>
      exts.foldl
        (fun acc altExt =>
          let altName := stem ++ altExt
          if altName ≠ basename ∧ altName ∉ acc then acc ++ [altName] else acc)
        altsPrec
  if extLower = ".gguf" ∧ m.isSome then
    afterExt ++ [precSubAll stem ++ ".safetensors"]
  else if extLower = ".safetensors" then
    afterExt ++ (["Q4_K_M", "Q5_K_M", "Q8_0"].flatMap fun quant =>
      [stem ++ "_" ++ quant ++ ".gguf", stem ++ "-" ++ quant ++ ".gguf"])
  else afterExt

/-- `find_model_with_alternatives(model_name, model_db, ext_model_db)`:
for each alternative name in order, try the local table by exact key, then
by key basename, then the external catalog by filename or display name;
first hit wins at `CONFIDENCE_ALIAS` with method `"alias"`.  `some (info,
confidence, method, matched_name)` models the found case. -/
def find_model_with_alternatives (model_name : String)
    (model_db : List (String × ModelInfo)) (ext_model_db : List ExtModel) :
    Option (ModelInfo × ℚ × String × String) :=
  let alternatives := get_alternative_names model_name
  alternatives.findSome? fun altName =>
    match model_db.lookup altName with
    | some info => some (info, CONFIDENCE_ALIAS, "alias", altName)
    | none =>
      let altBasename := pyBasename altName
      match model_db.find? fun p => pyBasename p.1 == altBasename with
      | some kv => some (kv.2, CONFIDENCE_ALIAS, "alias", kv.1)
      | none =>
        match ext_model_db.find? fun (mdl : ExtModel) =>
            (mdl.filename == some altBasename) || (mdl.name == some altBasename) with
        | some mdl =>
          some (({ url := mdl.url
                   filename := mdl.filename
                   folder := some (mdl.mtype.getD "checkpoints")
                   description := some ((mdl.name.getD altBasename) ++ " (Alt format)") } :
                  ModelInfo),
                CONFIDENCE_ALIAS, "alias", altBasename)
        | none => none

/-- `enhanced_model_search(model_name, model_db, ext_model_db, threshold)`:
alias search first, fuzzy second; the returned info dict is annotated with
`_matched_name`, `_confidence` and `_method`.  `some (info, confidence,
method)` models the `(True, info, confidence, method)` return. -/
def enhanced_model_search (model_name : String)
    (model_db : List (String × ModelInfo)) (ext_model_db : List ExtModel)
    (fuzzy_threshold : ℚ) : Option (ModelInfo × ℚ × String) :=
  match find_model_with_alternatives model_name model_db ext_model_db with
  | some (info, confidence, method, matched) =>
    some ({ info with
              matchedName := some matched
              confidence := some confidence
              method := some method }, confidence, method)
  | none =>
    match fuzzy_match_in_db model_name model_db ext_model_db fuzzy_threshold with
    | some (info, confidence, matched) =>
      some ({ info with
                matchedName := some matched
                confidence := some confidence
                method := some "fuzzy" }, confidence, "fuzzy")
    | none => none

/-!  Embedding of the resolution layer of `Manager/core/checker.py`.

External services are oracles in `Env`; each consultation is logged as a
`NetOp`.  `search_huggingface`, `search_civitai` and `search_tavily` are
modelled at the granularity of their observable result (the pair they
return), since every claim about them concerns only whether and with what
result they are consulted. -/

/-- One embedded workflow entry of `EMBEDDED_MODEL_URLS`
(`{url, directory, source}`). -/
structure EmbeddedInfo where
  url : String
  directory : String
  source : String
  deriving DecidableEq, Repr

/-- The recognised options of `settings.json`; `none` means the key is
absent and the code's default applies. -/
structure Settings where
  fuzzyThreshold : Option ℚ := none
  enableCivitai : Option Bool := none
  enableTavily : Option Bool := none
  useAria2 : Option Bool := none

/-- Headers of a HEAD response, as read case-insensitively by `requests`. -/
structure HeadHeaders where
  acceptRanges : Option String := none
  contentRange : Option String := none
  deriving DecidableEq, Repr

/-- A streaming GET response: the `content-length` header, the sequence of
chunks `iter_content` yields, and whether the stream raises after the
yielded chunks. -/
structure GetResp where
  contentLength : Option Nat := none
  chunks : List (List Nat) := []
  streamFail : Bool := false

/-- An external interaction performed by the engine. -/
inductive NetOp where
  | hfSearch (name : String)
  | civitaiSearch (name : String)
  | tavilySearch (name : String)
  | hfHubDownload (repoId filename : String)
  | aria2Download (url : String)
  | headReq (url : String)
  | getReq (url : String)
  | rangedGet (url : String) (start stop attempt : Nat)
  deriving DecidableEq, Repr

/-- The process environment: the loaded tables, settings, API keys, and
one oracle per external service. -/
structure Env where
  modelDb : List (String × ModelInfo) := []
  extModelDb : List ExtModel := []
  embeddedModelUrls : List (String × EmbeddedInfo) := []
  folderMappings : List (String × String) := []
  extraModelPaths : List (String × String) := []
  settings : Settings := {}
  civitaiKey : Option String := none
  tavilyKey : Option String := none
  hfSearch : String → Option (String × String) := fun _ => none
  civitaiSearch : String → Option (String × ModelInfo) := fun _ => none
  tavilySearch : String → Option (String × ModelInfo) := fun _ => none
  hfHub : String → String → Option (List Nat) := fun _ _ => none
  aria2Available : Bool := false
  aria2Fetch : String → Option (List Nat) := fun _ => none
  headReq : String → Option HeadHeaders := fun _ => none
  getReq : String → Except String GetResp := fun _ => Except.error "connection error"
  chunkFetch : Nat → Nat → Nat → Option (List Nat) := fun _ _ _ => none

/-- `guess_model_folder(filename)`: keyword heuristic for the target
folder. -/
def guess_model_folder (filename : String) : String :=
  let lower := strLower filename
  if strContains lower "vae" then "vae"
  else if strContains lower "clip" then "clip"
  else if strContains lower "lora" then "loras"
  else if strContains lower "controlnet" then "controlnet"
  else if strContains lower "unet" || strContains lower "diffusion" then "diffusion_models"
  else if strContains lower "llm" || strContains lower "qwen" || strContains lower "t5" then "LLM"
  else if strContains lower ".gguf" then "diffusion_models"
  else "checkpoints"

/-- The second (and therefore effective) definition of
`check_model_in_db` (checker.py lines 561-600): exact name, then basename,
then key-basename lookup in `MODEL_DB`, returning the stored record
unannotated; otherwise a HuggingFace search.  It neither consults nor
updates `NOT_FOUND_CACHE` and carries no confidence or method fields for
table hits.  Result: `((in_db, info_dict), network_ops)`. -/
def check_model_in_db (env : Env) (model_name : String) :
    (Bool × Option ModelInfo) × List NetOp :=
  match env.modelDb.lookup model_name with
  | some info => ((true, some info), [])
  | none =>
    let basename := pyBasename model_name
    match env.modelDb.lookup basename with
    | some info => ((true, some info), [])
    | none =>
      match env.modelDb.find? fun p => basename == pyBasename p.1 with
      | some kv => ((true, some kv.2), [])
      | none =>
        match env.hfSearch model_name with
        | some rf =>
          ((true, some ({ repoId := some rf.1
                          filename := some rf.2
                          folder := some (guess_model_folder basename)
                          description := some "Auto-found on HuggingFace" } : ModelInfo)),
           [NetOp.hfSearch model_name])
        | none => ((false, none), [NetOp.hfSearch model_name])

/-- Tiers 1 of the v6 cascade: exact full-name, exact basename, and
key-basename lookup in the local `MODEL_DB`, each annotated with
confidence `CONFIDENCE_EXACT` and method `"exact"` on a copy of the
record. -/
def v6LocalExact (db : List (String × ModelInfo)) (model_name basename : String) :
    Option ModelInfo :=
  match db.lookup model_name with
  | some info =>
    some { info with confidence := some CONFIDENCE_EXACT, method := some "exact" }
  | none =>
    match db.lookup basename with
    | some info =>
      some { info with confidence := some CONFIDENCE_EXACT, method := some "exact" }
    | none =>
      (db.find? fun p => basename == pyBasename p.1).map fun kv =>
        { kv.2 with confidence := some CONFIDENCE_EXACT, method := some "exact" }

/-- Tier 2 of the v6 cascade: exact filename or display-name match in the
external catalog (both checks per entry, first entry wins). -/
def v6ExtExact (extDb : List ExtModel) (basename : String) : Option ModelInfo :=
  (extDb.find? fun mdl =>
      (mdl.filename == some basename) || (mdl.name == some basename)).map fun mdl =>
    { url := mdl.url
      filename := mdl.filename
      folder := some (mdl.mtype.getD "checkpoints")
      description := some ((mdl.name.getD "None") ++ " (External)")
      confidence := some CONFIDENCE_EXACT
      method := some "exact" }

/-- Tiers 5-7 of the v6 cascade: HuggingFace search, then CivitAI (when
enabled), then Tavily (when enabled and an API key is configured), each
logged; CivitAI results get a default confidence 0.75 (`setdefault`),
Tavily results 0.60. -/
def v6Search (env : Env) (model_name basename : String) :
    (Bool × Option ModelInfo) × List NetOp :=
  match env.hfSearch model_name with
  | some rf =>
    ((true, some ({ repoId := some rf.1
                    filename := some rf.2
                    folder := some (guess_model_folder basename)
                    description := some "Auto-found on HuggingFace"
                    confidence := some (Rat.divInt 85 100)
                    method := some "huggingface" } : ModelInfo)),
     [NetOp.hfSearch model_name])
  | none =>
    let ops0 := [NetOp.hfSearch model_name]
    let civitaiStep : Option ModelInfo × List NetOp :=
      if env.settings.enableCivitai.getD true then
        match env.civitaiSearch model_name with
        | some uc =>
          (some { uc.2 with
                    folder := some (uc.2.folder.getD (guess_model_folder basename))
                    confidence := some (uc.2.confidence.getD (Rat.divInt 75 100))
                    method := some "civitai" },
           ops0 ++ [NetOp.civitaiSearch model_name])
        | none => (none, ops0 ++ [NetOp.civitaiSearch model_name])
      else (none, ops0)
    match civitaiStep with
    | (some info, ops) => ((true, some info), ops)
    | (none, ops) =>
      if env.settings.enableTavily.getD true ∧ env.tavilyKey.isSome then
        match env.tavilySearch model_name with
        | some ut =>
          ((true, some { ut.2 with
                           folder := some (ut.2.folder.getD (guess_model_folder basename))
                           confidence := some (ut.2.confidence.getD (Rat.divInt 60 100))
                           method := some "tavily" }),
           ops ++ [NetOp.tavilySearch model_name])
        | none => ((false, none), ops ++ [NetOp.tavilySearch model_name])
      else ((false, none), ops)

/-- The first, enhanced v6 definition of `check_model_in_db` (checker.py
lines 134-269), shadowed at runtime by the later legacy definition: the
Not-Found cache gate, the embedded-URL tier, exact local and external
lookups, alias and fuzzy search, then the external search tiers; an
unresolved basename is added to the Not-Found cache.  Result:
`((in_db, info_dict), updated_not_found_cache, network_ops)`. -/
def check_model_in_db_v6 (env : Env) (cache : List String) (model_name : String) :
    (Bool × Option ModelInfo) × List String × List NetOp :=
  let basename := pyBasename model_name
  if basename ∈ cache then ((false, none), cache, [])
  else
    match env.embeddedModelUrls.lookup basename with
    | some e =>
      ((true, some ({ url := some e.url
                      folder := some e.directory
                      description := some "Embedded in workflow"
                      source := some "embedded"
                      confidence := some CONFIDENCE_EXACT
                      method := some "embedded" } : ModelInfo)), cache, [])
    | none =>
      match v6LocalExact env.modelDb model_name basename with
      | some info => ((true, some info), cache, [])
      | none =>
        match v6ExtExact env.extModelDb basename with
        | some info => ((true, some info), cache, [])
        | none =>
          let fuzzyThreshold := env.settings.fuzzyThreshold.getD (Rat.divInt 70 100)
          match enhanced_model_search model_name env.modelDb env.extModelDb fuzzyThreshold with
          | some ims => ((true, some ims.1), cache, [])
          | none =>
            match v6Search env model_name basename with
            | ((true, info), ops) => ((true, info), cache, ops)
            | ((false, _), ops) =>
              ((false, none),
               (if basename ∈ cache then cache else cache ++ [basename]), ops)

/-!  Embedding of the download layer (`download_chunk`,
`download_model_parallel`, `download_model` of checker.py, with the aria2
delegation of aria2_downloader.py and `hf_hub_download` as oracles).  The
filesystem is an association list from paths to byte lists.  Within one
parallel job the per-range writes are serialized by the shared file lock;
they are modelled in submission order, which is also the order in which
`results` collects the futures. -/

/-- The modelled filesystem: path to file bytes. -/
abbrev FS := List (String × List Nat)

/-- Create or overwrite a file (dictionary assignment on the unique-key
maps the engine maintains). -/
def fsSet : FS → String → List Nat → FS
  | [], path, content => [(path, content)]
  | p :: rest, path, content =>
    if p.1 = path then (path, content) :: rest
    else p :: fsSet rest path content

/-- `os.remove` (a no-op when the path is absent, matching the guarded
`if os.path.exists: os.remove` sites). -/
def fsErase (fs : FS) (path : String) : FS :=
  fs.filter fun p => p.1 != path

/-- Write `bytes` into `file` at `offset` (`f.seek(offset); f.write(bytes)`
on a file opened `r+b`): overwrites in place, zero-fills any gap, extends
at the end. -/
def writeAt (file : List Nat) (offset : Nat) (bytes : List Nat) : List Nat :=
  file.take offset ++ List.replicate (offset - file.length) 0
    ++ bytes ++ file.drop (offset + bytes.length)

/-- `MIN_FILE_SIZE = 1024 * 1024`: the minimum plausible size used by
`download_model` for a pre-existing file. -/
def MIN_FILE_SIZE : Nat := 1024 * 1024

/-- The attempt loop of `download_chunk` (`max_retries = 3`): each attempt
issues the ranged GET; a successful response is written at the range's
offset under the file lock (opening the target `r+b` fails if the file is
missing, which counts as a failed attempt). -/
def download_chunk_attempts (env : Env) (url target_path : String)
    (start stop : Nat) (fs : FS) : List Nat → Bool × FS × List NetOp
  | [] => (false, fs, [])
  | a :: rest =>
    let op := NetOp.rangedGet url start stop a
    match env.chunkFetch start stop a with
    | some content =>
      match fs.lookup target_path with
      | some file => (true, fsSet fs target_path (writeAt file start content), [op])
      | none =>
        let r := download_chunk_attempts env url target_path start stop fs rest
        (r.1, r.2.1, op :: r.2.2)
    | none =>
      let r := download_chunk_attempts env url target_path start stop fs rest
      (r.1, r.2.1, op :: r.2.2)

/-- `download_chunk(url, start, end, target_path, session, file_lock)`. -/
def download_chunk (env : Env) (url target_path : String) (start stop : Nat)
    (fs : FS) : Bool × FS × List NetOp :=
  download_chunk_attempts env url target_path start stop fs [0, 1, 2]

/-- The byte ranges of `download_model_parallel`: `threads` equal ranges,
the last one absorbing the remainder. -/
def chunkRanges (total_size threads : Nat) : List (Nat × Nat) :=
  let chunkSize := total_size / threads
  (List.range threads).map fun i =>
    let start := i * chunkSize
    (start, if i < threads - 1 then start + chunkSize - 1 else total_size - 1)

/-- Run `download_chunk` for each range in submission order, threading the
filesystem and collecting the per-range results. -/
def downloadChunksRun (env : Env) (url target_path : String) (fs : FS) :
    List (Nat × Nat) → List Bool × FS × List NetOp
  | [] => ([], fs, [])
  | r :: rest =>
    let c := download_chunk env url target_path r.1 r.2 fs
    let rr := downloadChunksRun env url target_path c.2.1 rest
    (c.1 :: rr.1, rr.2.1, c.2.2 ++ rr.2.2)

/-- The body of `download_model_parallel` after the pre-allocation and the
range-support preflight: run all chunks; on any failed range delete the
target and report failure. -/
def parallelChunksPhase (env : Env) (url target_path : String) (fs : FS)
    (ranges : List (Nat × Nat)) (ops0 : List NetOp) :
    (Bool × String) × FS × List NetOp :=
  let r := downloadChunksRun env url target_path fs ranges
  if r.1.all id then
    ((true, "Download successful"), r.2.1, ops0 ++ r.2.2)
  else
    ((false, "One or more chunks failed to download"),
     fsErase r.2.1 target_path, ops0 ++ r.2.2)

/-- `download_model_parallel(url, target_path, total_size, ...)`: zero-fill
the target to the full size, compute the 4 ranges, preflight a HEAD for
range support (failure of the HEAD itself is ignored), then fetch the
ranges; `((success, message), filesystem, network_ops)`. -/
def download_model_parallel (env : Env) (url target_path : String)
    (total_size : Nat) (fs : FS) : (Bool × String) × FS × List NetOp :=
  let fs1 := fsSet fs target_path (List.replicate total_size 0)
  let ranges := chunkRanges total_size 4
  match env.headReq url with
  | some h =>
    if h.acceptRanges ≠ some "bytes" ∧ h.contentRange = none then
      ((false, "Range not supported"), fs1, [NetOp.headReq url])
    else
      parallelChunksPhase env url target_path fs1 ranges [NetOp.headReq url]
  | none =>
    parallelChunksPhase env url target_path fs1 ranges [NetOp.headReq url]

/-- The sequential streamed fallback of `download_model`: write the
response chunks to the target; a mid-stream exception removes the file
(the `except` branch of `download_model`) and reports `Error: ...`. -/
def sequentialPhase (filename target_path : String) (resp : GetResp) (fs : FS)
    (ops : List NetOp) : (Bool × String) × FS × List NetOp :=
  let fsW := fsSet fs target_path resp.chunks.flatten
  if resp.streamFail then
    ((false, "Error: stream interrupted"), fsErase fsW target_path, ops)
  else ((true, "Downloaded " ++ filename), fsW, ops)

/-- The built-in downloader of `download_model`: one streaming GET; files
over `50 * 1024 * 1024` bytes first try the parallel strategy; otherwise
(or on its failure) the response is streamed sequentially to disk. -/
def download_model_builtin (env : Env) (filename target_path url : String)
    (fs : FS) (ops0 : List NetOp) : (Bool × String) × FS × List NetOp :=
  match env.getReq url with
  | Except.error e =>
    ((false, "Error: " ++ e), fsErase fs target_path, ops0 ++ [NetOp.getReq url])
  | Except.ok resp =>
    let total_size := resp.contentLength.getD 0
    if total_size > 50 * 1024 * 1024 then
      match download_model_parallel env url target_path total_size fs with
      | ((true, _), fs1, ops1) =>
        ((true, "Downloaded " ++ filename ++ " (Parallel)"), fs1,
         ops0 ++ [NetOp.getReq url] ++ ops1)
      | ((false, _), fs1, ops1) =>
        sequentialPhase filename target_path resp fs1 (ops0 ++ [NetOp.getReq url] ++ ops1)
    else
      sequentialPhase filename target_path resp fs (ops0 ++ [NetOp.getReq url])

/-- The URL-based strategies of `download_model`: no URL is a failure;
aria2 is tried when enabled and available (its partial-file cleanup is
internal to `smart_download`); then the built-in downloader. -/
def download_model_url (env : Env) (info : ModelInfo) (filename target_path : String)
    (fs : FS) (ops0 : List NetOp) : (Bool × String) × FS × List NetOp :=
  match info.url with
  | none => ((false, "No download URL available"), fs, ops0)
  | some url =>
    if env.settings.useAria2.getD true && env.aria2Available then
      match env.aria2Fetch url with
      | some content =>
        ((true, "Downloaded " ++ filename ++ " (aria2)"),
         fsSet fs target_path content, ops0 ++ [NetOp.aria2Download url])
      | none =>
        download_model_builtin env filename target_path url fs
          (ops0 ++ [NetOp.aria2Download url])
    else
      download_model_builtin env filename target_path url fs ops0

/-- The strategy chain of `download_model` after the existence check:
`hf_hub_download` when the record carries `repo_id` and a filename
(falling through to the URL strategies on failure), then the URL
strategies. -/
def download_model_fetch (env : Env) (info : ModelInfo) (filename target_path : String)
    (fs : FS) (ops0 : List NetOp) : (Bool × String) × FS × List NetOp :=
  match info.repoId, info.filename.orElse (fun _ => info.hfFilename) with
  | some r, some f =>
    (match env.hfHub r f with
     | some content =>
       ((true, "Downloaded " ++ filename), fsSet fs target_path content,
        ops0 ++ [NetOp.hfHubDownload r f])
     | none =>
       download_model_url env info filename target_path fs
         (ops0 ++ [NetOp.hfHubDownload r f]))
  | _, _ => download_model_url env info filename target_path fs ops0

/-- `download_model(model_name, ...)`: resolve through the (effective)
`check_model_in_db`, compute the target path from the folder mappings, let
a pre-existing file above `MIN_FILE_SIZE` short-circuit with success
(removing it instead when it is at or below that size), then run the
strategy chain; `((success, message), filesystem, network_ops)`. -/
def download_model (env : Env) (fs : FS) (model_name : String) :
    (Bool × String) × FS × List NetOp :=
  match check_model_in_db env model_name with
  | ((false, _), ops0) =>
    ((false, "Model '" ++ model_name ++ "' not found in MODEL_DB"), fs, ops0)
  | ((true, none), ops0) =>
    -- unreachable: the resolver always carries a record when it reports found
    ((false, "Model '" ++ model_name ++ "' not found in MODEL_DB"), fs, ops0)
  | ((true, some info), ops0) =>
    let folder_key := info.folder.getD "checkpoints"
    let folder_path :=
      match env.extraModelPaths.lookup folder_key with
      | some p => p
      | none =>
        (env.folderMappings.lookup folder_key).getD ("ComfyUI/models/" ++ folder_key)
    let target_dir := joinPath "BASE" folder_path
    let filename := pyBasename model_name
    let target_path := joinPath target_dir filename
    match fs.lookup target_path with
    | some content =>
      if content.length > MIN_FILE_SIZE then
        ((true, "Already exists: " ++ filename ++ " ("
            ++ toString (content.length / (1024 * 1024)) ++ "MB)"), fs, ops0)
      else
        download_model_fetch env info filename target_path (fsErase fs target_path) ops0
    | none =>
      download_model_fetch env info filename target_path fs ops0

/-!  Basic filesystem lemmas. -/

theorem lookup_fsSet (fs : FS) (path : String) (content : List Nat) :
    (fsSet fs path content).lookup path = some content := by
  induction fs with
  | nil => simp [fsSet, List.lookup]
  | cons p rest ih =>
    by_cases h : p.1 = path
    · simp [fsSet, h, List.lookup]
    · simp only [fsSet, if_neg h, List.lookup]
      have : (path == p.1) = false := by
        simp [beq_iff_eq]
        exact fun hc => h hc.symm
      simp [this, ih]

theorem lookup_fsErase (fs : FS) (path : String) :
    (fsErase fs path).lookup path = none := by
  induction fs with
  | nil => rfl
  | cons p rest ih =>
    by_cases h : p.1 = path
    · simp [fsErase, List.filter, h, ih]
      simpa [fsErase] using ih
    · have hne : (p.1 != path) = true := by simp [bne_iff_ne]; exact h
      have hne' : (path == p.1) = false := by
        simp [beq_iff_eq]
        exact fun hc => h hc.symm
      simp only [fsErase, List.filter, hne, List.lookup, hne']
      simpa [fsErase] using ih

/-- Shared evaluation lemma: when the preflight HEAD reports no range
support, `download_model_parallel` returns the `Range not supported`
failure with the pre-allocated zero-filled file still in place. -/
theorem parallel_range_not_supported_eq
    (env : Env) (fs : FS) (url target_path : String) (total_size : Nat)
    (h : HeadHeaders)
    (hhead : env.headReq url = some h)
    (har : h.acceptRanges ≠ some "bytes")
    (hcr : h.contentRange = none) :
    download_model_parallel env url target_path total_size fs =
      ((false, "Range not supported"),
       fsSet fs target_path (List.replicate total_size 0),
       [NetOp.headReq url]) := by
  simp only [download_model_parallel, hhead]
  rw [if_pos ⟨har, hcr⟩]

/-- C10: `download_model_parallel` truncates the target to a zero-filled
file of the full total size before the range-support preflight, so a
`Range not supported` failure (no chunk having been attempted) returns with
the zero-filled file still on disk and only the HEAD request performed. -/
theorem parallel_preallocates_before_preflight
    (env : Env) (fs : FS) (url target_path : String) (total_size : Nat)
    (h : HeadHeaders)
    (hhead : env.headReq url = some h)
    (har : h.acceptRanges ≠ some "bytes")
    (hcr : h.contentRange = none) :
    download_model_parallel env url target_path total_size fs =
      ((false, "Range not supported"),
       fsSet fs target_path (List.replicate total_size 0),
       [NetOp.headReq url]) ∧
    (download_model_parallel env url target_path total_size fs).2.1.lookup target_path
      = some (List.replicate total_size 0) := by
  have h1 := parallel_range_not_supported_eq env fs url target_path total_size h
    hhead har hcr
  refine ⟨h1, ?_⟩
  rw [h1]
  exact lookup_fsSet fs target_path (List.replicate total_size 0)

/-- Concrete instance of the preceding theorem. -/
def envC10 : Env := { headReq := fun _ => some {} }

theorem parallel_preallocates_before_preflight_witness :
    download_model_parallel envC10 "http://x/m" "T" 100 [] =
      ((false, "Range not supported"), [("T", List.replicate 100 0)],
       [NetOp.headReq "http://x/m"]) := by
  have := (parallel_preallocates_before_preflight envC10 [] "http://x/m" "T" 100
    {} rfl (by simp) rfl).1
  simpa [fsSet] using this

/-- A range whose three GET attempts all fail makes `download_chunk` report
failure. -/
theorem download_chunk_fails (env : Env) (url tp : String) (s e : Nat) (fs : FS)
    (hf : ∀ a, a < 3 → env.chunkFetch s e a = none) :
    (download_chunk env url tp s e fs).1 = false := by
  simp [download_chunk, download_chunk_attempts,
    hf 0 (by norm_num), hf 1 (by norm_num), hf 2 (by norm_num)]

/-- If some submitted range fails all its attempts, the collected results
contain `false`. -/
theorem downloadChunksRun_false_mem (env : Env) (url tp : String) (s e : Nat)
    (hf : ∀ a, a < 3 → env.chunkFetch s e a = none) :
    ∀ (ranges : List (Nat × Nat)) (fs : FS), (s, e) ∈ ranges →
      false ∈ (downloadChunksRun env url tp fs ranges).1 := by
  intro ranges
  induction ranges with
  | nil => intro fs hmem; cases hmem
  | cons r rest ih =>
    intro fs hmem
    simp only [downloadChunksRun]
    rcases List.mem_cons.mp hmem with heq | htail
    · have hc : (download_chunk env url tp r.1 r.2 fs).1 = false := by
        rw [← heq]
        exact download_chunk_fails env url tp s e fs hf
      exact List.mem_cons.mpr (Or.inl hc.symm)
    · exact List.mem_cons.mpr (Or.inr (ih _ htail))

/-- C5: if any range of `download_model_parallel` exhausts its 3 retry
attempts (the preflight having passed), the job reports failure and the
target file does not exist afterwards. -/
theorem download_model_parallel_failed_chunk_cleanup
    (env : Env) (fs : FS) (url target_path : String) (total_size : Nat)
    (s e : Nat) (h : HeadHeaders)
    (hhead : env.headReq url = some h)
    (har : h.acceptRanges = some "bytes")
    (hmem : (s, e) ∈ chunkRanges total_size 4)
    (hf : ∀ a, a < 3 → env.chunkFetch s e a = none) :
    (download_model_parallel env url target_path total_size fs).1.1 = false ∧
    (download_model_parallel env url target_path total_size fs).2.1.lookup target_path
      = none := by
  have hcond : ¬(h.acceptRanges ≠ some "bytes" ∧ h.contentRange = none) :=
    fun hc => hc.1 har
  have hred : download_model_parallel env url target_path total_size fs =
      parallelChunksPhase env url target_path
        (fsSet fs target_path (List.replicate total_size 0))
        (chunkRanges total_size 4) [NetOp.headReq url] := by
    simp only [download_model_parallel, hhead]
    rw [if_neg hcond]
  rw [hred]
  have hfalse := downloadChunksRun_false_mem env url target_path s e hf
    (chunkRanges total_size 4)
    (fsSet fs target_path (List.replicate total_size 0)) hmem
  have hall : ((downloadChunksRun env url target_path
      (fsSet fs target_path (List.replicate total_size 0))
      (chunkRanges total_size 4)).1.all id) = false := by
    rw [List.all_eq_false]
    exact ⟨false, hfalse, by simp⟩
  simp only [parallelChunksPhase, hall]
  exact ⟨rfl, lookup_fsErase _ _⟩

/-- Concrete instance: range `(3, 5)` of a 12-byte parallel job always
fails; the job fails and the file is gone. -/
def envC5 : Env :=
  { headReq := fun _ => some { acceptRanges := some "bytes" }
    chunkFetch := fun s _ _ => if s = 0 then some [1, 2, 3] else none }

theorem download_model_parallel_failed_chunk_cleanup_witness :
    ((3, 5) ∈ chunkRanges 12 4) ∧
    ((download_model_parallel envC5 "u" "T" 12 []).1.1 = false ∧
     (download_model_parallel envC5 "u" "T" 12 []).2.1.lookup "T" = none) :=
  ⟨by decide,
   download_model_parallel_failed_chunk_cleanup envC5 [] "u" "T" 12 3 5
     { acceptRanges := some "bytes" } rfl rfl (by decide) (fun _ _ => rfl)⟩

/-- Evaluation lemma for the strategy chain on an empty filesystem: with the
hub strategy inapplicable, aria2 disabled, a large advertised size and no
range support, the chain runs GET, then the aborted parallel attempt's
HEAD, then streams sequentially to success. -/
theorem fetch_no_range_sequential_eq
    (env : Env) (info : ModelInfo) (filename tp u : String)
    (resp : GetResp) (h : HeadHeaders) (n : Nat)
    (hrepo : info.repoId = none)
    (hurl : info.url = some u)
    (haria : env.settings.useAria2 = some false)
    (hget : env.getReq u = Except.ok resp)
    (hlen : resp.contentLength = some n)
    (hbig : n > 50 * 1024 * 1024)
    (hstream : resp.streamFail = false)
    (hhead : env.headReq u = some h)
    (har : h.acceptRanges ≠ some "bytes")
    (hcr : h.contentRange = none) :
    download_model_fetch env info filename tp [] [] =
      ((true, "Downloaded " ++ filename),
       fsSet (fsSet [] tp (List.replicate n 0)) tp resp.chunks.flatten,
       [NetOp.getReq u, NetOp.headReq u]) := by
  have hpar := parallel_range_not_supported_eq env [] u tp n h hhead har hcr
  simp only [download_model_fetch, hrepo, download_model_url, hurl, haria,
    Option.getD, Bool.false_and, Bool.false_eq_true, if_false,
    download_model_builtin, hget, hlen, if_pos hbig, hpar, sequentialPhase,
    hstream, if_false, List.nil_append]
  rfl

/-- C9: for a resolved URL source whose GET advertises a size above the
50 MB parallel threshold but whose origin answers the preflight HEAD with
neither `Accept-Ranges: bytes` nor a `Content-Range` header, no ranged GET
is ever issued and `download_model` completes with the sequential
strategy's success message (not the parallel one). -/
theorem download_model_no_range_uses_sequential
    (env : Env) (model_name : String) (info : ModelInfo) (u : String)
    (resp : GetResp) (h : HeadHeaders) (n : Nat)
    (hdb : env.modelDb.lookup model_name = some info)
    (hrepo : info.repoId = none)
    (hurl : info.url = some u)
    (haria : env.settings.useAria2 = some false)
    (hget : env.getReq u = Except.ok resp)
    (hlen : resp.contentLength = some n)
    (hbig : n > 50 * 1024 * 1024)
    (hstream : resp.streamFail = false)
    (hhead : env.headReq u = some h)
    (har : h.acceptRanges ≠ some "bytes")
    (hcr : h.contentRange = none) :
    (download_model env [] model_name).1 =
      (true, "Downloaded " ++ pyBasename model_name) ∧
    ∀ u' s e a, NetOp.rangedGet u' s e a ∉ (download_model env [] model_name).2.2 := by
  have hred : download_model env [] model_name =
      download_model_fetch env info (pyBasename model_name)
        (joinPath (joinPath "BASE"
          (match env.extraModelPaths.lookup (info.folder.getD "checkpoints") with
           | some p => p
           | none => (env.folderMappings.lookup (info.folder.getD "checkpoints")).getD
               ("ComfyUI/models/" ++ info.folder.getD "checkpoints")))
          (pyBasename model_name)) [] [] := by
    simp only [download_model, check_model_in_db, hdb, List.lookup]
  rw [hred, fetch_no_range_sequential_eq env info (pyBasename model_name) _ u resp h n
    hrepo hurl haria hget hlen hbig hstream hhead har hcr]
  refine ⟨rfl, ?_⟩
  intro u' s e a
  simp

/-- Concrete instance of the preceding theorem: a 60 MB source, no range
support, aria2 disabled. -/
def envC9 : Env :=
  { modelDb := [("m.safetensors", { url := some "http://x/m" })]
    settings := { useAria2 := some false }
    headReq := fun _ => some {}
    getReq := fun _ =>
      Except.ok { contentLength := some 60000000, chunks := [[1], [2]] } }

theorem download_model_no_range_uses_sequential_witness :
    (download_model envC9 [] "m.safetensors").1 =
      (true, "Downloaded " ++ pyBasename "m.safetensors") ∧
    ∀ u' s e a,
      NetOp.rangedGet u' s e a ∉ (download_model envC9 [] "m.safetensors").2.2 :=
  download_model_no_range_uses_sequential envC9 "m.safetensors"
    { url := some "http://x/m" } "http://x/m"
    { contentLength := some 60000000, chunks := [[1], [2]] } {} 60000000
    rfl rfl rfl rfl rfl rfl (by norm_num) rfl rfl (by simp) rfl

/-- A file comfortably above the 1 MB tripwire. -/
def fileBig : List Nat := List.replicate 1048577 7

/-- An environment with no resolvable models (claim C8's counterexample). -/
def envC8x : Env := {}

/-- A filesystem holding the target file, above the tripwire, at the
default checkpoints path `download_model` computes for
`m.safetensors`. -/
def fsC8 : FS := [("BASE/ComfyUI/models/checkpoints/m.safetensors", fileBig)]

/-- C8 counterexample: resolution runs before the existence check, so even
with the target file on disk above the tripwire, a name the resolver cannot
place returns failure after performing a HuggingFace network search —
neither the immediate success nor the zero network calls of the claim. -/
theorem download_model_existing_file_not_short_circuit :
    fsC8.lookup "BASE/ComfyUI/models/checkpoints/m.safetensors" = some fileBig ∧
    fileBig.length > MIN_FILE_SIZE ∧
    (download_model envC8x fsC8 "m.safetensors").1 =
      (false, "Model 'm.safetensors' not found in MODEL_DB") ∧
    (download_model envC8x fsC8 "m.safetensors").2.2 =
      [NetOp.hfSearch "m.safetensors"] := by
  refine ⟨rfl, ?_, rfl, rfl⟩
  unfold fileBig MIN_FILE_SIZE
  rw [List.length_replicate]
  norm_num

/-- C8 amended: when the name resolves inside the local table (no network
tier involved) and the target file already exists above `MIN_FILE_SIZE`,
`download_model` short-circuits with immediate success, zero network
operations and an unchanged filesystem. -/
theorem download_model_existing_file_short_circuit
    (env : Env) (fs : FS) (model_name : String) (info : ModelInfo)
    (content : List Nat) (tp : String)
    (hdb : env.modelDb.lookup model_name = some info)
    (htp : tp = joinPath (joinPath "BASE"
        (match env.extraModelPaths.lookup (info.folder.getD "checkpoints") with
         | some p => p
         | none => (env.folderMappings.lookup (info.folder.getD "checkpoints")).getD
             ("ComfyUI/models/" ++ info.folder.getD "checkpoints")))
        (pyBasename model_name))
    (hfile : fs.lookup tp = some content)
    (hsize : content.length > MIN_FILE_SIZE) :
    download_model env fs model_name =
      ((true, "Already exists: " ++ pyBasename model_name ++ " ("
          ++ toString (content.length / (1024 * 1024)) ++ "MB)"), fs, []) := by
  subst htp
  simp only [download_model, check_model_in_db, hdb, hfile]
  rw [if_pos hsize]

/-- An environment resolving `m.safetensors` locally. -/
def envC8 : Env := { modelDb := [("m.safetensors", { url := some "u" })] }

theorem download_model_existing_file_short_circuit_witness :
    download_model envC8 fsC8 "m.safetensors" =
      ((true, "Already exists: " ++ pyBasename "m.safetensors" ++ " ("
          ++ toString (fileBig.length / (1024 * 1024)) ++ "MB)"), fsC8, []) :=
  download_model_existing_file_short_circuit envC8 fsC8 "m.safetensors"
    { url := some "u" } fileBig "BASE/ComfyUI/models/checkpoints/m.safetensors"
    rfl rfl rfl
    (by unfold fileBig MIN_FILE_SIZE; rw [List.length_replicate]; norm_num)

/-- An environment whose only model resolves to a URL serving 3 bytes. -/
def envC3 : Env :=
  { modelDb := [("m.safetensors", { url := some "http://x/m" })]
    settings := { useAria2 := some false }
    getReq := fun _ => Except.ok { contentLength := some 3, chunks := [[1, 2, 3]] } }

/-- C3 counterexample: a sequential download that completes with a 3-byte
body (far below `MIN_FILE_SIZE`) is reported as success and the tiny file
is left on disk — no post-download minimum-size check exists. -/
theorem download_model_success_below_min_size :
    (download_model envC3 [] "m.safetensors").1 = (true, "Downloaded m.safetensors") ∧
    (download_model envC3 [] "m.safetensors").2.1.lookup
        "BASE/ComfyUI/models/checkpoints/m.safetensors" = some [1, 2, 3] ∧
    ([1, 2, 3] : List Nat).length < MIN_FILE_SIZE := by
  refine ⟨rfl, rfl, ?_⟩
  norm_num [MIN_FILE_SIZE]

/-- C3 amended: the minimum-size tripwire applies only to a pre-existing
target file, which is removed before any strategy runs when it is at or
below `MIN_FILE_SIZE` — here shown with no strategy available, so the
engine reports the missing URL and the undersized file is gone. -/
theorem download_model_min_size_only_preexisting
    (env : Env) (fs : FS) (model_name : String) (info : ModelInfo)
    (content : List Nat) (tp : String)
    (hdb : env.modelDb.lookup model_name = some info)
    (hurl : info.url = none)
    (hrepo : info.repoId = none)
    (htp : tp = joinPath (joinPath "BASE"
        (match env.extraModelPaths.lookup (info.folder.getD "checkpoints") with
         | some p => p
         | none => (env.folderMappings.lookup (info.folder.getD "checkpoints")).getD
             ("ComfyUI/models/" ++ info.folder.getD "checkpoints")))
        (pyBasename model_name))
    (hfile : fs.lookup tp = some content)
    (hsize : ¬ content.length > MIN_FILE_SIZE) :
    download_model env fs model_name =
      ((false, "No download URL available"), fsErase fs tp, []) ∧
    (download_model env fs model_name).2.1.lookup tp = none := by
  subst htp
  have h1 : download_model env fs model_name =
      ((false, "No download URL available"),
       fsErase fs (joinPath (joinPath "BASE"
         (match env.extraModelPaths.lookup (info.folder.getD "checkpoints") with
          | some p => p
          | none => (env.folderMappings.lookup (info.folder.getD "checkpoints")).getD
              ("ComfyUI/models/" ++ info.folder.getD "checkpoints")))
         (pyBasename model_name)), []) := by
    simp only [download_model, check_model_in_db, hdb, hfile]
    rw [if_neg hsize]
    simp only [download_model_fetch, hrepo, download_model_url, hurl]
  refine ⟨h1, ?_⟩
  rw [h1]
  exact lookup_fsErase _ _

/-- A pre-existing 2-byte target file for a record with no source. -/
def envC3b : Env := { modelDb := [("m.safetensors", { folder := some "vae" })] }

/-- The undersized pre-existing file. -/
def fsC3 : FS := [("BASE/ComfyUI/models/vae/m.safetensors", [1, 2])]

theorem download_model_min_size_only_preexisting_witness :
    download_model envC3b fsC3 "m.safetensors" =
      ((false, "No download URL available"),
       fsErase fsC3 "BASE/ComfyUI/models/vae/m.safetensors", []) ∧
    (download_model envC3b fsC3 "m.safetensors").2.1.lookup
      "BASE/ComfyUI/models/vae/m.safetensors" = none :=
  download_model_min_size_only_preexisting envC3b fsC3 "m.safetensors"
    { folder := some "vae" } [1, 2] "BASE/ComfyUI/models/vae/m.safetensors"
    rfl rfl rfl rfl rfl (by decide)

/-- The precision (non-quantization) tags of `FORMAT_ALIASES`. -/
def precisionTags : List String :=
  ["fp16", "bf16", "fp32", "fp8", "fp8_e4m3fn", "fp8_e4m3fn_scaled"]

/-- C4 counterexample: `Q5_K_M` is a registered alternative of `Q4_K_S`,
and alias generation substitutes it, but the reverse direction is absent
from both the table and the generated alternatives. -/
theorem format_aliases_quant_asymmetric :
    ("model_Q5_K_M.gguf" ∈ get_alternative_names "model_Q4_K_S.gguf") ∧
    ("model_Q4_K_S.gguf" ∉ get_alternative_names "model_Q5_K_M.gguf") ∧
    ("Q5_K_M" ∈ (FORMAT_ALIASES.lookup "Q4_K_S").getD []) ∧
    ("Q4_K_S" ∉ (FORMAT_ALIASES.lookup "Q5_K_M").getD []) := by
  decide

/-- C4 amended: restricted to the six precision tags the alias relation is
symmetric, and alias generation realises both directions of every
registered pair. -/
theorem format_aliases_precision_symmetric :
    ∀ a ∈ precisionTags, ∀ b ∈ precisionTags,
      ((b ∈ (FORMAT_ALIASES.lookup a).getD []) ↔
        (a ∈ (FORMAT_ALIASES.lookup b).getD [])) ∧
      ((b ∈ (FORMAT_ALIASES.lookup a).getD []) →
        ("model_" ++ b ++ ".safetensors") ∈
          get_alternative_names ("model_" ++ a ++ ".safetensors") ∧
        ("model_" ++ a ++ ".safetensors") ∈
          get_alternative_names ("model_" ++ b ++ ".safetensors")) := by
  decide

theorem format_aliases_precision_symmetric_witness :
    (("bf16" ∈ (FORMAT_ALIASES.lookup "fp16").getD []) ↔
      ("fp16" ∈ (FORMAT_ALIASES.lookup "bf16").getD [])) ∧
    (("bf16" ∈ (FORMAT_ALIASES.lookup "fp16").getD []) →
      ("model_" ++ "bf16" ++ ".safetensors") ∈
        get_alternative_names ("model_" ++ "fp16" ++ ".safetensors") ∧
      ("model_" ++ "fp16" ++ ".safetensors") ∈
        get_alternative_names ("model_" ++ "bf16" ++ ".safetensors")) :=
  format_aliases_precision_symmetric "fp16" (by decide) "bf16" (by decide)

/-- The record stored for the curated entry in the C1 counterexample. -/
def infoC1 : ModelInfo := { url := some "u" }

/-- A curated table whose single key differs from the query in case. -/
def envC1 : Env := { modelDb := [("M.safetensors", infoC1)] }

/-- C1 counterexample: (a) the effective `check_model_in_db` returns the
stored record for an exact-case basename hit with no confidence or method
annotation; (b) it does not find a differing-case basename at all; (c) the
shadowed enhanced definition resolves the differing-case basename through
the fuzzy tier, with method `"fuzzy"`, not `"exact"`. -/
theorem exact_tier_no_annotation_and_case_sensitive :
    ((check_model_in_db envC1 "M.safetensors").1 = (true, some infoC1) ∧
      infoC1.confidence = none ∧ infoC1.method = none) ∧
    ((check_model_in_db envC1 "m.safetensors").1 = (false, none)) ∧
    ((check_model_in_db_v6 envC1 [] "m.safetensors").1.1 = true ∧
      (check_model_in_db_v6 envC1 [] "m.safetensors").1.2.map ModelInfo.method
        = some (some "fuzzy") ∧
      (check_model_in_db_v6 envC1 [] "m.safetensors").1.2.map ModelInfo.confidence
        = some (some 1)) := by
  exact ⟨⟨rfl, rfl, rfl⟩, rfl, by decide, by decide, by decide⟩

/-- C1 amended: in the enhanced (first, shadowed) definition, a basename
present in exact case as a key of the curated table — and not intercepted
by the Not-Found cache or the embedded-URL table — resolves with
confidence `CONFIDENCE_EXACT` and method `"exact"`. -/
theorem v6_exact_basename_hit
    (env : Env) (cache : List String) (model_name : String) (info : ModelInfo)
    (hcache : pyBasename model_name ∉ cache)
    (hemb : env.embeddedModelUrls.lookup (pyBasename model_name) = none)
    (hdb : env.modelDb.lookup (pyBasename model_name) = some info) :
    ∃ i, (check_model_in_db_v6 env cache model_name).1 = (true, some i) ∧
      i.confidence = some CONFIDENCE_EXACT ∧ i.method = some "exact" := by
  simp only [check_model_in_db_v6, hemb]
  rw [if_neg hcache]
  cases hmn : env.modelDb.lookup model_name with
  | some info0 =>
    refine ⟨{ info0 with confidence := some CONFIDENCE_EXACT, method := some "exact" },
      ?_, rfl, rfl⟩
    simp [v6LocalExact, hmn]
  | none =>
    refine ⟨{ info with confidence := some CONFIDENCE_EXACT, method := some "exact" },
      ?_, rfl, rfl⟩
    simp [v6LocalExact, hmn, hdb]

/-- A curated table holding the queried basename in exact case. -/
def envC1w : Env := { modelDb := [("m.safetensors", { url := some "u" })] }

theorem v6_exact_basename_hit_witness :
    ∃ i, (check_model_in_db_v6 envC1w [] "m.safetensors").1 = (true, some i) ∧
      i.confidence = some CONFIDENCE_EXACT ∧ i.method = some "exact" :=
  v6_exact_basename_hit envC1w [] "m.safetensors" { url := some "u" }
    (by simp) rfl rfl

/-- An environment in which no tier can resolve anything. -/
def envGhost : Env := {}

/-- C2: the enhanced definition records an unresolvable basename in the
Not-Found cache and a repeat call performs no network operation; but the
later legacy definition that actually takes effect never consults or
updates the cache and repeats the HuggingFace search on every call. -/
theorem not_found_cache_dead_due_to_shadowing :
    (check_model_in_db envGhost "ghost.safetensors" =
      ((false, none), [NetOp.hfSearch "ghost.safetensors"])) ∧
    (check_model_in_db_v6 envGhost [] "ghost.safetensors" =
      ((false, none), ["ghost.safetensors"],
       [NetOp.hfSearch "ghost.safetensors", NetOp.civitaiSearch "ghost.safetensors"])) ∧
    (check_model_in_db_v6 envGhost ["ghost.safetensors"] "ghost.safetensors" =
      ((false, none), ["ghost.safetensors"], [])) :=
  ⟨rfl, rfl, rfl⟩

/-- A curated table fuzzily close to the queried name. -/
def envC6 : Env := { modelDb := [("wan_model.safetensors", { url := some "u" })] }

/-- C6: the fuzzy tier — implemented in the shadowed enhanced definition —
returns the close candidate with the measured (rounded) ratio as
confidence and method `"fuzzy"`, but the effective `check_model_in_db`
has no fuzzy tier and misses the same name entirely. -/
theorem fuzzy_tier_dead_due_to_shadowing :
    (check_model_in_db envC6 "wan_modelx.safetensors" =
      ((false, none), [NetOp.hfSearch "wan_modelx.safetensors"])) ∧
    ((check_model_in_db_v6 envC6 [] "wan_modelx.safetensors").1.1 = true) ∧
    ((check_model_in_db_v6 envC6 [] "wan_modelx.safetensors").1.2.map ModelInfo.method
      = some (some "fuzzy")) ∧
    ((check_model_in_db_v6 envC6 [] "wan_modelx.safetensors").1.2.map ModelInfo.confidence
      = some (some (round3 (smRatio "wan_modelx" "wan_model")))) ∧
    smRatio "wan_modelx" "wan_model" = 18/19 ∧
    round3 (Rat.divInt 18 19) = Rat.divInt 947 1000 ∧
    (70 : ℚ)/100 ≤ 18/19 := by
  have h1 : smRatio "wan_modelx" "wan_model" = Rat.divInt 18 19 := by decide
  refine ⟨rfl, by decide, by decide, by decide, ?_, by decide, by norm_num⟩
  rw [h1, Rat.divInt_eq_div]
  norm_num

/-- A curated candidate at similarity 0.75 and a HuggingFace oracle that
would also match the same input. -/
def envC7 : Env :=
  { modelDb := [("abcdefxy.safetensors", { url := some "u" })]
    hfSearch := fun _ => some ("repo", "abcdefgh.safetensors") }

/-- `envC7` without the curated candidate: the same input reaches the
HuggingFace tier. -/
def envC7b : Env := { hfSearch := fun _ => some ("repo", "abcdefgh.safetensors") }

/-- C7 counterexample: the fuzzy tier runs at a higher priority than the
HuggingFace tier yet returns a lower confidence (0.75) than the 0.85 the
same input receives from the HuggingFace tier once the fuzzy candidate is
absent — confidence is not monotonically non-increasing in tier priority
order. -/
theorem confidence_not_monotone_across_tiers :
    ((check_model_in_db_v6 envC7 [] "abcdefgh.safetensors").1.2.map ModelInfo.method
       = some (some "fuzzy")) ∧
    ((check_model_in_db_v6 envC7 [] "abcdefgh.safetensors").1.2.map ModelInfo.confidence
       = some (some (Rat.divInt 3 4))) ∧
    ((check_model_in_db_v6 envC7b [] "abcdefgh.safetensors").1.2.map ModelInfo.method
       = some (some "huggingface")) ∧
    ((check_model_in_db_v6 envC7b [] "abcdefgh.safetensors").1.2.map ModelInfo.confidence
       = some (some (Rat.divInt 85 100))) ∧
    Rat.divInt 3 4 = 3/4 ∧ Rat.divInt 85 100 = 85/100 ∧
    (3 : ℚ)/4 < 85/100 := by
  refine ⟨by decide, by decide, by decide, by decide, ?_, ?_, by norm_num⟩
  · rw [Rat.divInt_eq_div]; norm_num
  · rw [Rat.divInt_eq_div]; norm_num

/-!  Lemmas for the confidence-per-tier analysis (claim C7). -/

theorem mem_insertDesc {x y : String × ℚ} {l : List (String × ℚ)} :
    x ∈ insertDesc y l ↔ x = y ∨ x ∈ l := by
  induction l with
  | nil => simp [insertDesc]
  | cons z zs ih =>
    simp only [insertDesc]
    split
    · simp only [List.mem_cons]
    · simp only [List.mem_cons, ih]
      tauto

theorem mem_foldl_insertDesc (l : List (String × ℚ)) :
    ∀ (acc : List (String × ℚ)) (x : String × ℚ),
      x ∈ l.foldl (fun a p => insertDesc p a) acc ↔ x ∈ acc ∨ x ∈ l := by
  induction l with
  | nil => intro acc x; simp
  | cons y ys ih =>
    intro acc x
    simp only [List.foldl_cons, ih, mem_insertDesc, List.mem_cons]
    tauto

theorem mem_sortDesc {x : String × ℚ} {l : List (String × ℚ)} :
    x ∈ sortDesc l ↔ x ∈ l := by
  unfold sortDesc
  rw [mem_foldl_insertDesc]
  simp

/-- Every score retained by `fuzzy_match_model` is the rounded form of a
measured ratio at or above the threshold. -/
theorem fuzzy_match_model_mem {name : String} {cands : List String} {t : ℚ}
    {c : String} {q : ℚ} (h : (c, q) ∈ fuzzy_match_model name cands t) :
    ∃ r, q = round3 r ∧ t ≤ r := by
  unfold fuzzy_match_model at h
  split at h
  · cases h
  · rw [mem_sortDesc] at h
    rcases List.mem_filterMap.mp h with ⟨cand, _, hf⟩
    dsimp only at hf
    split at hf
    · next hge =>
      cases hf
      exact ⟨_, rfl, hge⟩
    · cases hf

/-- The scaled value formed inside `round3` is exactly `q * 1000`. -/
theorem round3_x_eq (q : ℚ) : Rat.divInt (1000 * q.num) q.den = q * 1000 := by
  have hden : ((q.den : ℚ)) ≠ 0 := by
    exact_mod_cast q.den_nz
  rw [Rat.divInt_eq_div]
  conv_rhs => rw [← Rat.num_div_den q]
  push_cast
  field_simp
  ring

/-- Rounding to 3 decimals cannot cross below the 0.70 threshold. -/
theorem le_round3_of_le {q : ℚ} (h : 7/10 ≤ q) : 7/10 ≤ round3 q := by
  have hx := round3_x_eq q
  have hn : (700 : ℤ) ≤ ⌊q * 1000⌋ := by
    rw [Int.le_floor]
    push_cast
    nlinarith
  have hn' : (700 : ℚ) ≤ (⌊q * 1000⌋ : ℚ) := by exact_mod_cast hn
  have hgoal1 : (7 : ℚ)/10 ≤ Rat.divInt ⌊q * 1000⌋ 1000 := by
    rw [Rat.divInt_eq_div]
    rw [div_le_div_iff₀ (by norm_num) (by norm_num)]
    push_cast
    nlinarith
  have hgoal2 : (7 : ℚ)/10 ≤ Rat.divInt (⌊q * 1000⌋ + 1) 1000 := by
    rw [Rat.divInt_eq_div]
    rw [div_le_div_iff₀ (by norm_num) (by norm_num)]
    push_cast
    nlinarith
  simp only [round3, hx]
  split
  · exact hgoal1
  split
  · exact hgoal2
  split
  · exact hgoal1
  · exact hgoal2

/-- A fuzzy hit from `fuzzy_match_in_db` carries the rounded form of a
measured ratio at or above the threshold. -/
theorem fuzzy_match_in_db_conf {model_name : String} {db : List (String × ModelInfo)}
    {ext : List ExtModel} {t : ℚ} {info : ModelInfo} {c : ℚ} {m : String}
    (h : fuzzy_match_in_db model_name db ext t = some (info, c, m)) :
    ∃ r, c = round3 r ∧ t ≤ r := by
  simp only [fuzzy_match_in_db] at h
  split at h
  · next bestName confidence tail heq =>
    have hmem : (bestName, confidence) ∈
        fuzzy_match_model (pyBasename model_name) (db.map Prod.fst) t := by
      by_cases hdb : db.isEmpty
      · rw [if_pos hdb] at heq; cases heq
      · rw [if_neg hdb] at heq; rw [heq]; exact List.mem_cons_self _ _
    rcases Option.map_eq_some'.mp h with ⟨i0, _, hinj⟩
    obtain ⟨r, hr, ht⟩ := fuzzy_match_model_mem hmem
    cases hinj
    exact ⟨r, hr, ht⟩
  · split at h
    · cases h
    · split at h
      · next bestName confidence tail heq =>
        have hmem : (bestName, confidence) ∈
            fuzzy_match_model (pyBasename model_name) (extNamesMap ext).1 t := by
          rw [heq]; exact List.mem_cons_self _ _
        rcases Option.map_eq_some'.mp h with ⟨m0, _, hinj⟩
        obtain ⟨r, hr, ht⟩ := fuzzy_match_model_mem hmem
        cases hinj
        exact ⟨r, hr, ht⟩
      · cases h

/-- Every hit of the alias search carries method `"alias"` and confidence
`CONFIDENCE_ALIAS`. -/
theorem find_model_with_alternatives_shape {model_name : String}
    {db : List (String × ModelInfo)} {ext : List ExtModel}
    {info : ModelInfo} {c : ℚ} {m mt : String}
    (h : find_model_with_alternatives model_name db ext = some (info, c, m, mt)) :
    m = "alias" ∧ c = CONFIDENCE_ALIAS := by
  unfold find_model_with_alternatives at h
  rcases List.exists_of_findSome?_eq_some h with ⟨alt, _, halt⟩
  dsimp only at halt
  split at halt
  · cases halt; exact ⟨rfl, rfl⟩
  · split at halt
    · cases halt; exact ⟨rfl, rfl⟩
    · split at halt
      · cases halt; exact ⟨rfl, rfl⟩
      · cases halt

/-- The annotated result of `enhanced_model_search`: method and confidence
are recorded in the info dict, and a fuzzy result's confidence is a rounded
ratio at or above the threshold. -/
theorem enhanced_model_search_conf {model_name : String}
    {db : List (String × ModelInfo)} {ext : List ExtModel} {t : ℚ}
    {info : ModelInfo} {c : ℚ} {m : String}
    (h : enhanced_model_search model_name db ext t = some (info, c, m)) :
    info.method = some m ∧ info.confidence = some c ∧
    (m = "fuzzy" → ∃ r, c = round3 r ∧ t ≤ r) ∧ (m = "alias" ∨ m = "fuzzy") := by
  unfold enhanced_model_search at h
  split at h
  · next info0 c0 m0 matched heq =>
    cases h
    obtain ⟨hm, -⟩ := find_model_with_alternatives_shape heq
    subst hm
    refine ⟨rfl, rfl, ?_, Or.inl rfl⟩
    intro hf
    exact absurd hf (by decide)
  · split at h
    · next info0 c0 matched heq =>
      cases h
      exact ⟨rfl, rfl, fun _ => fuzzy_match_in_db_conf heq, Or.inr rfl⟩
    · cases h

/-- Local exact hits carry method `"exact"`. -/
theorem v6LocalExact_method {db : List (String × ModelInfo)} {mn b : String}
    {info : ModelInfo} (h : v6LocalExact db mn b = some info) :
    info.method = some "exact" := by
  unfold v6LocalExact at h
  split at h
  · cases h; rfl
  · split at h
    · cases h; rfl
    · rcases Option.map_eq_some'.mp h with ⟨kv, -, hinj⟩
      cases hinj; rfl

/-- External-catalog exact hits carry method `"exact"`. -/
theorem v6ExtExact_method {ext : List ExtModel} {b : String} {info : ModelInfo}
    (h : v6ExtExact ext b = some info) : info.method = some "exact" := by
  unfold v6ExtExact at h
  rcases Option.map_eq_some'.mp h with ⟨mdl, -, hinj⟩
  cases hinj; rfl

/-- Results of the external search tiers carry one of the three external
methods. -/
theorem v6Search_method {env : Env} {mn b : String} {info : ModelInfo}
    (h : (v6Search env mn b).1.2 = some info) :
    info.method = some "huggingface" ∨ info.method = some "civitai" ∨
    info.method = some "tavily" := by
  simp only [v6Search] at h
  split at h
  · dsimp only at h
    cases h
    exact Or.inl rfl
  · split at h
    · next heq =>
      dsimp only at h
      cases h
      -- the scrutinee of the first branch equality carries the record shape
      split at heq
      · split at heq
        · cases heq; exact Or.inr (Or.inl rfl)
        · cases heq
      · cases heq
    · split at h
      · split at h
        · dsimp only at h
          cases h
          exact Or.inr (Or.inr rfl)
        · dsimp only at h
          cases h
      · dsimp only at h
        cases h

/-- C7 amended: the fixed tier confidences are non-increasing in the order
embedded/exact (1.0), alias (0.90), huggingface (0.85), civitai
(0.75/0.65), tavily (0.60); the fuzzy tier — which actually runs before
the three external tiers — returns the measured (rounded) ratio, which at
the default threshold is only guaranteed to be at least 0.70, so the
monotonicity does not extend across the fuzzy tier's position in the
cascade. -/
theorem confidence_matches_method :
    (CONFIDENCE_ALIAS ≤ CONFIDENCE_EXACT ∧
     CONFIDENCE_FUZZY_HIGH ≤ CONFIDENCE_ALIAS ∧
     (75 : ℚ)/100 ≤ CONFIDENCE_FUZZY_HIGH ∧
     (65 : ℚ)/100 ≤ (75 : ℚ)/100 ∧ (60 : ℚ)/100 ≤ (65 : ℚ)/100) ∧
    ∀ (env : Env) (cache : List String) (model_name : String) (info : ModelInfo),
      env.settings.fuzzyThreshold = none →
      (check_model_in_db_v6 env cache model_name).1.2 = some info →
      info.method = some "fuzzy" →
      ∃ c, info.confidence = some c ∧ 70/100 ≤ c := by
  constructor
  · refine ⟨?_, ?_, ?_, ?_, ?_⟩ <;>
      norm_num [CONFIDENCE_EXACT, CONFIDENCE_ALIAS, CONFIDENCE_FUZZY_HIGH,
        Rat.divInt_eq_div]
  · intro env cache model_name info hthr hres hmethod
    simp only [check_model_in_db_v6] at hres
    split at hres
    · simp at hres
    · split at hres
      · dsimp only at hres
        cases hres
        simp at hmethod
      · split at hres
        · next heq =>
          dsimp only at hres
          cases hres
          rw [v6LocalExact_method heq] at hmethod
          simp at hmethod
        · split at hres
          · next heq =>
            dsimp only at hres
            cases hres
            rw [v6ExtExact_method heq] at hmethod
            simp at hmethod
          · split at hres
            · next ims heq =>
              dsimp only at hres
              cases hres
              obtain ⟨i0, c0, m0⟩ := ims
              obtain ⟨hm, hc, hf, -⟩ := enhanced_model_search_conf heq
              rw [hm] at hmethod
              have hm0 : m0 = "fuzzy" := Option.some.inj hmethod
              obtain ⟨r, hr, ht⟩ := hf hm0
              rw [hthr, Option.getD_none] at ht
              have hdiv : Rat.divInt 70 100 = 7/10 := by
                rw [Rat.divInt_eq_div]; norm_num
              rw [hdiv] at ht
              have h2 := le_round3_of_le ht
              refine ⟨c0, hc, ?_⟩
              rw [hr]
              linarith
            · split at hres
              · next oinfo ops heq =>
                dsimp only at hres
                have hs : (v6Search env model_name (pyBasename model_name)).1.2
                    = some info := by
                  rw [heq]; exact hres
                rcases v6Search_method hs with h1 | h1 | h1 <;>
                  rw [h1] at hmethod <;> simp at hmethod
              · dsimp only at hres
                simp at hres

/-- The concrete fuzzy result of `envC7` for `abcdefgh.safetensors`. -/
def infoC7w : ModelInfo :=
  { url := some "u"
    confidence := some (Rat.divInt 3 4)
    method := some "fuzzy"
    matchedName := some "abcdefxy.safetensors" }

theorem confidence_matches_method_witness :
    ∃ c, infoC7w.confidence = some c ∧ 70/100 ≤ c :=
  (confidence_matches_method).2 envC7 [] "abcdefgh.safetensors" infoC7w
    rfl (by decide) rfl
